import Mathlib

/-
Shallow embedding of the persistence and consistency layer of the recipe
catalog server (src/server.py).  The server keeps two flat-file JSON stores:
`data.json` holding `{"recipes": [...], "last_id": n}` and `reviews.json`
holding a list of review aggregates.  Each endpoint is modelled as a pure
function on an explicit filesystem state `FS`; an endpoint that raises an
HTTP 404 is modelled with `Except ApiError`, and endpoints that write data
return the updated `FS`.
-/

namespace RecipeApp

/-- Model of the pydantic `Recipe` draft: title, ingredients, steps, category. -/
structure Recipe where
  title : String
  ingredients : List String
  steps : List String
  category : String
deriving DecidableEq

/-- Model of `RecipewithID`: a `Recipe` together with its assigned integer id. -/
structure RecipewithID extends Recipe where
  id : Int
deriving DecidableEq

/-- Model of `ReviewRating`: the review aggregate stored per recipe.
The rating is a real number in the source (a Python float validated into
[0,5]); no arithmetic is ever performed on it, so it is modelled as `ℚ`. -/
structure ReviewRating where
  recipe_id : Int
  rating : ℚ
  reviews : List String
deriving DecidableEq

/-- The persisted shape of `data.json`: the recipe list and the id watermark. -/
structure RecipeData where
  recipes : List RecipewithID
  last_id : Int
deriving DecidableEq

/-- The filesystem as the server sees it: each store file either exists with
parsed content, or is absent (`none`), in which case `read_data` supplies the
default shape. -/
structure FS where
  data_file : Option RecipeData
  reviews_file : Option (List ReviewRating)
deriving DecidableEq

def DATA_FILE : String := "data.json"

def REVIEWS_FILE : String := "reviews.json"

/-- A parsed store document: either the recipe container or the review list. -/
inductive Document where
  | recipeDoc (d : RecipeData)
  | reviewDoc (l : List ReviewRating)
deriving DecidableEq

/-- Model of `read_data(filename)`: if the file does not exist, return the
default shape chosen by file name (`[]` for `REVIEWS_FILE`, otherwise
`{"recipes": [], "last_id": 0}`); if it exists, return its parsed content. -/
def read_data (fs : FS) (filename : String) : Document :=
  if filename == REVIEWS_FILE then
    match fs.reviews_file with
    | none => .reviewDoc []
    | some l => .reviewDoc l
  else
    match fs.data_file with
    | none => .recipeDoc { recipes := [], last_id := 0 }
    | some d => .recipeDoc d

/-- `read_data(DATA_FILE)` projected to the recipe container. -/
def readRecipes (fs : FS) : RecipeData :=
  match read_data fs DATA_FILE with
  | .recipeDoc d => d
  | .reviewDoc _ => { recipes := [], last_id := 0 }

/-- `read_data(REVIEWS_FILE)` projected to the review list. -/
def readReviews (fs : FS) : List ReviewRating :=
  match read_data fs REVIEWS_FILE with
  | .reviewDoc l => l
  | .recipeDoc _ => []

/-- The 404 errors the endpoints raise, with their detail strings. -/
inductive ApiError where
  | notFound (detail : String)
deriving DecidableEq

deriving instance DecidableEq for Except

/-- Python `s.lower()`: lowercase each character (ASCII case folding via
`Char.toLower`, which agrees with Python on the ASCII inputs this system
uses).  Defined by structural recursion over the character list so that it
evaluates inside the kernel. -/
def strLower (s : String) : String :=
  ⟨s.data.map Char.toLower⟩

/-- Python substring test on character lists: does `hay` start with `needle`? -/
def charsStart : List Char → List Char → Bool
  | [], _ => true
  | _ :: _, [] => false
  | n :: ns, h :: hs => n == h && charsStart ns hs

/-- Python `needle in hay` on character lists: substring occurrence. -/
def charsSub (needle : List Char) : List Char → Bool
  | [] => charsStart needle []
  | h :: hs => charsStart needle (h :: hs) || charsSub needle hs

/-- Python `needle in hay` on strings. -/
def strContains (hay needle : String) : Bool :=
  charsSub needle.data hay.data

/-- The ingredient clause of the filter in `get_recipes`:
`any(ingredient.lower() in ings.lower() for ings in recipe["ingredients"]) if ingredient else True`.
Python truthiness makes both `None` and the empty string count as no filter. -/
def ingredientMatch (ingredient : Option String) (recipe : RecipewithID) : Bool :=
  match ingredient with
  | none => true
  | some ing =>
    if ing == "" then true
    else recipe.ingredients.any fun ings => strContains (strLower ings) (strLower ing)

/-- The category clause of the filter in `get_recipes`:
`recipe["category"].lower() == category.lower() if category else True`.
Python truthiness makes both `None` and the empty string count as no filter. -/
def categoryMatch (category : Option String) (recipe : RecipewithID) : Bool :=
  match category with
  | none => true
  | some cat =>
    if cat == "" then true
    else strLower recipe.category == strLower cat

/-- Model of `POST /recipes/` (`add_recipe`): reads both stores, assigns
`new_id = last_id + 1`, appends the new recipe, bumps `last_id`, writes the
recipe store, appends a fresh `{recipe_id, rating: 0, reviews: []}` aggregate,
writes the review store, and returns the stored recipe. -/
def add_recipe (recipe : Recipe) (fs : FS) : FS × RecipewithID :=
  let data := readRecipes fs
  let reviews_data := readReviews fs
  let last_id := data.last_id
  let new_id := last_id + 1
  let new_recipe : RecipewithID := { toRecipe := recipe, id := new_id }
  let data2 : RecipeData := { recipes := data.recipes ++ [new_recipe], last_id := new_id }
  let reviews2 := reviews_data ++ [{ recipe_id := new_id, rating := 0, reviews := [] }]
  ({ data_file := some data2, reviews_file := some reviews2 }, new_recipe)

/-- Model of `GET /recipes/` (`get_recipes`): filters the stored recipes by
the optional ingredient/category arguments; raises 404 when the filtered list
is empty, otherwise returns it.  No store is written. -/
def get_recipes (ingredient category : Option String) (fs : FS) :
    FS × Except ApiError (List RecipewithID) :=
  let data := readRecipes fs
  let filtered_recipes := data.recipes.filter fun recipe =>
    ingredientMatch ingredient recipe && categoryMatch category recipe
  (fs,
    if filtered_recipes.isEmpty then
      .error (.notFound "No recipes found matching the criteria.")
    else
      .ok filtered_recipes)

/-- Model of `GET /recipes/{recipe_id}/reviews` (`get_reviews`): linear scan
for the first aggregate with the given `recipe_id`; 404 when absent. -/
def get_reviews (recipe_id : Int) (fs : FS) : Except ApiError ReviewRating :=
  match (readReviews fs).find? (fun item => item.recipe_id == recipe_id) with
  | some item => .ok item
  | none => .error (.notFound "Reviews not found for this recipe")

/-- The loop body of `update_reviews`: walk the review list, and on the first
aggregate whose `recipe_id` matches, overwrite all of its fields with the
payload (`item.update(review_rating.model_dump())`), returning the updated
list and the updated item.  `none` when no aggregate matches. -/
def updateFirst (recipe_id : Int) (rr : ReviewRating) :
    List ReviewRating → Option (List ReviewRating × ReviewRating)
  | [] => none
  | item :: rest =>
    if item.recipe_id == recipe_id then
      let updated : ReviewRating :=
        { item with recipe_id := rr.recipe_id, rating := rr.rating, reviews := rr.reviews }
      some (updated :: rest, updated)
    else
      (updateFirst recipe_id rr rest).map fun p => (item :: p.1, p.2)

/-- Model of `PUT /recipes/{recipe_id}/reviews` (`update_reviews`): update the
first matching aggregate with the whole payload and persist the review store;
404 (and no write) when no aggregate matches the path id. -/
def update_reviews (recipe_id : Int) (review_rating : ReviewRating) (fs : FS) :
    FS × Except ApiError ReviewRating :=
  match updateFirst recipe_id review_rating (readReviews fs) with
  | some (reviews2, item) => ({ fs with reviews_file := some reviews2 }, .ok item)
  | none => (fs, .error (.notFound "Recipe not found for updating reviews"))

/-- Model of `DELETE /recipes/{recipe_id}` (`delete_recipe`): 404 (and no
write) when no recipe has the id; otherwise remove the recipe from the
recipe store and every aggregate with that `recipe_id` from the review store,
persisting both. -/
def delete_recipe (recipe_id : Int) (fs : FS) : FS × Except ApiError Unit :=
  let data := readRecipes fs
  let reviews_data := readReviews fs
  let recipe_exists := data.recipes.any fun recipe => recipe.id == recipe_id
  if recipe_exists then
    let data2 : RecipeData :=
      { recipes := data.recipes.filter fun recipe => recipe.id != recipe_id
        last_id := data.last_id }
    let reviews2 := reviews_data.filter fun review => review.recipe_id != recipe_id
    ({ data_file := some data2, reviews_file := some reviews2 }, .ok ())
  else
    (fs, .error (.notFound "Recipe not found"))

/-- The validation the pydantic boundary enforces on a draft: non-empty
title, at least one ingredient, at least one step. -/
def Recipe.valid (r : Recipe) : Prop :=
  r.title ≠ "" ∧ r.ingredients ≠ [] ∧ r.steps ≠ []

/-- The id watermark currently stored. -/
def lastId (fs : FS) : Int :=
  (readRecipes fs).last_id

/-- A consistent store: every review aggregate refers to an id that has
already been issued, i.e. is at most the watermark. -/
def FS.consistent (fs : FS) : Prop :=
  ∀ a ∈ readReviews fs, a.recipe_id ≤ lastId fs

/-! ### Concrete states used to instantiate the theorems -/

/-- A valid draft, the one from the spec's scenario. -/
def draftW : Recipe :=
  { title := "Pancakes", ingredients := ["Flour", "Egg", "Milk"],
    steps := ["Mix", "Cook"], category := "breakfast" }

/-- The store before any file has been written. -/
def fsEmpty : FS := { data_file := none, reviews_file := none }

/-- A store holding one recipe (id 1) and its aggregate. -/
def fsOne : FS :=
  { data_file := some { recipes := [{ toRecipe := draftW, id := 1 }], last_id := 1 }
    reviews_file := some [{ recipe_id := 1, rating := 2, reviews := ["a"] }] }

/-- A recipe whose ingredient list contains an entry with "egg" inside it. -/
def eggRecipeW : RecipewithID :=
  { title := "Omelette", ingredients := ["Eggs", "Milk"], steps := ["Whisk"],
    category := "breakfast", id := 1 }

/-- A recipe none of whose ingredient entries contains "egg". -/
def baconRecipeW : RecipewithID :=
  { title := "Bacon", ingredients := ["Bacon"], steps := ["Fry"],
    category := "breakfast", id := 2 }

/-- A store holding the egg and bacon recipes. -/
def fsEgg : FS :=
  { data_file := some { recipes := [eggRecipeW, baconRecipeW], last_id := 2 }
    reviews_file := some [{ recipe_id := 1, rating := 0, reviews := [] },
                          { recipe_id := 2, rating := 0, reviews := [] }] }

/-- A reachable inconsistent store: the aggregate of the one-recipe store
rekeyed to 2 = last_id + 1 through the update endpoint (the behaviour of
claim C10). -/
def fsStale : FS :=
  (update_reviews 1 { recipe_id := 2, rating := 5, reviews := ["x"] } fsOne).1

/-- A stored recipe whose ingredient list is empty (creatable only outside
the validating boundary, but a possible stored collection). -/
def emptyIngRecipeW : RecipewithID :=
  { title := "Mystery", ingredients := [], steps := ["Serve"],
    category := "dinner", id := 3 }

/-- A store holding only the ingredient-less recipe. -/
def fsEmptyIng : FS :=
  { data_file := some { recipes := [emptyIngRecipeW], last_id := 3 }
    reviews_file := some [{ recipe_id := 3, rating := 0, reviews := [] }] }

/-! ### Predicates worded from the specification, used as refinement targets
for the filtering claim. -/

/-- The spec's notion of substring: `needle` occurs contiguously in `hay`. -/
def isSubstring (needle hay : String) : Prop :=
  ∃ p q : List Char, hay.data = p ++ needle.data ++ q

/-- The spec's ingredient clause: no ingredient filter given, or the filter
text is a case-insensitive substring of at least one ingredient entry. -/
def specIngredientOk (ingredient : Option String) (r : RecipewithID) : Prop :=
  ingredient = none ∨
    ∃ s, ingredient = some s ∧
      ∃ entry ∈ r.ingredients, isSubstring (strLower s) (strLower entry)

/-- The spec's category clause: no category filter given, or the filter text
case-insensitively equals the recipe's category. -/
def specCategoryOk (category : Option String) (r : RecipewithID) : Prop :=
  category = none ∨ ∃ s, category = some s ∧ strLower r.category = strLower s

/-- The ingredient clause as the program actually behaves: an empty filter
text additionally counts as an absent filter. -/
def amendedIngredientOk (ingredient : Option String) (r : RecipewithID) : Prop :=
  ingredient = none ∨ ingredient = some "" ∨
    ∃ s, ingredient = some s ∧
      ∃ entry ∈ r.ingredients, isSubstring (strLower s) (strLower entry)

/-- The category clause as the program actually behaves: an empty filter
text additionally counts as an absent filter. -/
def amendedCategoryOk (category : Option String) (r : RecipewithID) : Prop :=
  category = none ∨ category = some "" ∨
    ∃ s, category = some s ∧ strLower r.category = strLower s

/-! ### Store access lemmas -/

theorem readRecipes_eq (fs : FS) :
    readRecipes fs = fs.data_file.getD { recipes := [], last_id := 0 } := by
  cases fs with
  | mk d r => cases d <;> rfl

theorem readReviews_eq (fs : FS) :
    readReviews fs = fs.reviews_file.getD [] := by
  cases fs with
  | mk d r => cases r <;> rfl

/-! ### List scanning lemmas -/

theorem find_skip {α : Type} {p : α → Bool} {l₁ : List α} (l₂ : List α)
    (h : ∀ x ∈ l₁, p x = false) :
    (l₁ ++ l₂).find? p = l₂.find? p := by
  induction l₁ with
  | nil => rfl
  | cons a t ih =>
    have ha : ¬p a = true := by simp [h a (List.mem_cons_self a t)]
    rw [List.cons_append, List.find?_cons_of_neg _ ha]
    exact ih fun x hx => h x (List.mem_cons_of_mem a hx)

theorem find_decomp {α : Type} {p : α → Bool} {l : List α} {a : α}
    (h : l.find? p = some a) :
    ∃ l₁ l₂, l = l₁ ++ a :: l₂ ∧ ∀ x ∈ l₁, p x = false := by
  induction l with
  | nil => simp [List.find?] at h
  | cons b t ih =>
    by_cases hb : p b = true
    · rw [List.find?_cons_of_pos t hb] at h
      obtain rfl : b = a := by simpa using h
      exact ⟨[], t, rfl, by simp⟩
    · rw [List.find?_cons_of_neg t hb] at h
      obtain ⟨l₁, l₂, rfl, hall⟩ := ih h
      refine ⟨b :: l₁, l₂, rfl, ?_⟩
      intro x hx
      rcases List.mem_cons.mp hx with rfl | hx
      · simpa using hb
      · exact hall x hx

theorem updateFirst_split (N : Int) (rr : ReviewRating) (l₁ l₂ : List ReviewRating)
    (a : ReviewRating) (h₁ : ∀ x ∈ l₁, (x.recipe_id == N) = false)
    (ha : a.recipe_id = N) :
    updateFirst N rr (l₁ ++ a :: l₂) = some (l₁ ++ rr :: l₂, rr) := by
  induction l₁ with
  | nil =>
    simp only [List.nil_append, updateFirst, ha, beq_self_eq_true, if_true]
  | cons b t ih =>
    have hb : (b.recipe_id == N) = false := h₁ b (List.mem_cons_self b t)
    rw [List.cons_append]
    simp only [updateFirst, hb, Bool.false_eq_true, if_false,
      ih fun x hx => h₁ x (List.mem_cons_of_mem b hx), Option.map_some]
    rfl

/-! ### Effect of the endpoints on the watermark -/

theorem lastId_add_recipe (r : Recipe) (fs : FS) :
    lastId (add_recipe r fs).1 = lastId fs + 1 := by
  simp [lastId, add_recipe, readRecipes_eq]

theorem add_recipe_id (r : Recipe) (fs : FS) :
    (add_recipe r fs).2.id = lastId fs + 1 := by
  simp [lastId, add_recipe]

theorem add_recipe_reviews (r : Recipe) (fs : FS) :
    readReviews (add_recipe r fs).1 =
      readReviews fs ++ [{ recipe_id := lastId fs + 1, rating := 0, reviews := [] }] := by
  simp [add_recipe, readReviews_eq, lastId]

theorem lastId_delete_recipe (i : Int) (fs : FS) :
    lastId (delete_recipe i fs).1 = lastId fs := by
  simp only [delete_recipe]
  by_cases h : ((readRecipes fs).recipes.any fun recipe => recipe.id == i) = true
  · rw [if_pos h]
    simp [lastId, readRecipes_eq]
  · rw [if_neg h]

/-! ### Traces of create/delete requests -/

/-- One request in an interleaving of createRecipe and deleteRecipe calls. -/
inductive Cmd where
  | create (r : Recipe)
  | del (i : Int)

/-- Run a sequence of create/delete requests against the store, collecting in
order the ids returned by the create calls. -/
def runTrace (fs : FS) : List Cmd → FS × List Int
  | [] => (fs, [])
  | Cmd.create r :: cs =>
    ((runTrace (add_recipe r fs).1 cs).1,
      (add_recipe r fs).2.id :: (runTrace (add_recipe r fs).1 cs).2)
  | Cmd.del i :: cs => runTrace (delete_recipe i fs).1 cs

theorem runTrace_spec (cs : List Cmd) : ∀ fs : FS,
    lastId fs ≤ lastId (runTrace fs cs).1 ∧
    (∀ i ∈ (runTrace fs cs).2, lastId fs < i ∧ i ≤ lastId (runTrace fs cs).1) ∧
    (runTrace fs cs).2.Pairwise (· < ·) := by
  induction cs with
  | nil => intro fs; simp [runTrace]
  | cons c t ih =>
    intro fs
    cases c with
    | create r =>
      obtain ⟨hmono, hmem, hpair⟩ := ih (add_recipe r fs).1
      have hlast := lastId_add_recipe r fs
      have hid := add_recipe_id r fs
      simp only [runTrace]
      refine ⟨by omega, ?_, ?_⟩
      · intro i hi
        rcases List.mem_cons.mp hi with rfl | hi
        · omega
        · have := hmem i hi
          omega
      · rw [List.pairwise_cons]
        refine ⟨fun j hj => ?_, hpair⟩
        have := hmem j hj
        omega
    | del i =>
      obtain ⟨hmono, hmem, hpair⟩ := ih (delete_recipe i fs).1
      have hlast := lastId_delete_recipe i fs
      simp only [runTrace]
      refine ⟨by omega, fun j hj => ?_, hpair⟩
      have := hmem j hj
      omega

/-- Scanning for key `N` after filtering key `N` away finds nothing. -/
theorem find_filter_ne (N : Int) (rl : List ReviewRating) :
    (rl.filter fun review => review.recipe_id != N).find?
      (fun item => item.recipe_id == N) = none := by
  rw [List.find?_eq_none]
  intro x hx
  have hxne : (x.recipe_id != N) = true := (List.mem_filter.mp hx).2
  simp only [bne_iff_ne, ne_eq] at hxne
  simp [hxne]

/-! ### Characterization of the list endpoint -/

theorem get_recipes_ok {ing cat : Option String} {fs : FS} {l : List RecipewithID}
    (h : (get_recipes ing cat fs).2 = .ok l) :
    l = (readRecipes fs).recipes.filter fun recipe =>
      ingredientMatch ing recipe && categoryMatch cat recipe := by
  simp only [get_recipes] at h
  by_cases he : ((readRecipes fs).recipes.filter fun recipe =>
      ingredientMatch ing recipe && categoryMatch cat recipe).isEmpty = true
  · rw [if_pos he] at h
    exact absurd h (by simp)
  · rw [if_neg he] at h
    simpa using h.symm

/-! ### Correctness of the substring scan -/

theorem charsStart_iff (n : List Char) : ∀ h : List Char,
    charsStart n h = true ↔ ∃ t, h = n ++ t := by
  induction n with
  | nil =>
    intro h
    simp [charsStart]
  | cons c ns ih =>
    intro h
    cases h with
    | nil =>
      constructor
      · intro hh
        exact absurd hh (by simp [charsStart])
      · rintro ⟨t, ht⟩
        exact absurd ht (by simp)
    | cons d hs =>
      simp only [charsStart, Bool.and_eq_true, beq_iff_eq, ih hs]
      constructor
      · rintro ⟨rfl, t, rfl⟩
        exact ⟨t, rfl⟩
      · rintro ⟨t, ht⟩
        rw [List.cons_append] at ht
        injection ht with h1 h2
        exact ⟨h1.symm, t, h2⟩

theorem charsSub_iff (n : List Char) : ∀ h : List Char,
    charsSub n h = true ↔ ∃ p q, h = p ++ n ++ q := by
  intro h
  induction h with
  | nil =>
    simp only [charsSub, charsStart_iff]
    constructor
    · rintro ⟨t, ht⟩
      exact ⟨[], t, by simpa using ht⟩
    · rintro ⟨p, q, hpq⟩
      have hnil : p = [] ∧ n = [] ∧ q = [] := by
        have h2 := hpq.symm
        rw [List.append_assoc] at h2
        simp only [List.append_eq_nil] at h2
        tauto
      exact ⟨[], by simp [hnil.2.1]⟩
  | cons c hs ih =>
    simp only [charsSub, Bool.or_eq_true, charsStart_iff, ih]
    constructor
    · rintro (⟨t, ht⟩ | ⟨p, q, hpq⟩)
      · exact ⟨[], t, by simpa using ht⟩
      · exact ⟨c :: p, q, by simp [hpq]⟩
    · rintro ⟨p, q, hpq⟩
      cases p with
      | nil =>
        exact Or.inl ⟨q, by simpa using hpq⟩
      | cons d ps =>
        rw [List.cons_append, List.cons_append] at hpq
        injection hpq with h1 h2
        exact Or.inr ⟨ps, q, h2⟩

theorem strContains_iff (hay needle : String) :
    strContains hay needle = true ↔ isSubstring needle hay :=
  charsSub_iff needle.data hay.data

/-- The boolean filter predicate of `get_recipes` agrees with the spec's two
clauses amended by Python truthiness: an empty filter text is no filter. -/
theorem filter_agrees_with_amended_spec (ing cat : Option String) (r : RecipewithID) :
    (ingredientMatch ing r && categoryMatch cat r) = true ↔
      amendedIngredientOk ing r ∧ amendedCategoryOk cat r := by
  rw [Bool.and_eq_true]
  apply and_congr
  · cases ing with
    | none => simp [ingredientMatch, amendedIngredientOk]
    | some s =>
      by_cases hs : s = ""
      · subst hs
        simp [ingredientMatch, amendedIngredientOk]
      · have hs2 : (s == "") = false := beq_eq_false_iff_ne.mpr hs
        simp only [ingredientMatch]
        rw [hs2, if_neg Bool.false_ne_true, List.any_eq_true]
        simp only [strContains_iff, amendedIngredientOk]
        constructor
        · rintro ⟨entry, he, hsub⟩
          exact Or.inr (Or.inr ⟨s, rfl, entry, he, hsub⟩)
        · rintro (h | h | ⟨s2, hs3, entry, he, hsub⟩)
          · exact Option.noConfusion h
          · injection h with h
            exact absurd h hs
          · injection hs3 with hs3
            subst hs3
            exact ⟨entry, he, hsub⟩
  · cases cat with
    | none => simp [categoryMatch, amendedCategoryOk]
    | some s =>
      by_cases hs : s = ""
      · subst hs
        simp [categoryMatch, amendedCategoryOk]
      · have hs2 : (s == "") = false := beq_eq_false_iff_ne.mpr hs
        simp only [categoryMatch]
        rw [hs2, if_neg Bool.false_ne_true, beq_iff_eq]
        simp only [amendedCategoryOk]
        constructor
        · intro hh
          exact Or.inr (Or.inr ⟨s, rfl, hh⟩)
        · rintro (h | h | ⟨s2, hs3, hh⟩)
          · exact Option.noConfusion h
          · injection h with h
            exact absurd h hs
          · injection hs3 with hs3
            subst hs3
            exact hh

/-! ### The claims -/

/-- Claim C1: along any interleaving of createRecipe and deleteRecipe calls
starting from any store, the ids returned by createRecipe are strictly
increasing in order of issue (so each is strictly greater than every
previously issued id and no id is issued twice), the `last_id` watermark
never decreases across the trace, and deleteRecipe never changes it. -/
theorem C1_ids_strictly_increasing :
    (∀ (fs : FS) (cs : List Cmd),
      (runTrace fs cs).2.Pairwise (· < ·) ∧
      (runTrace fs cs).2.Nodup ∧
      lastId fs ≤ lastId (runTrace fs cs).1) ∧
    ∀ (fs : FS) (i : Int), lastId (delete_recipe i fs).1 = lastId fs := by
  refine ⟨fun fs cs => ?_, fun fs i => lastId_delete_recipe i fs⟩
  obtain ⟨hmono, _, hpair⟩ := runTrace_spec cs fs
  exact ⟨hpair, hpair.imp fun h => ne_of_lt h, hmono⟩

/-- Claim C2 counterexample: from the reachable store `fsStale`, whose stale
aggregate was rekeyed to 2 = last_id + 1 through the update endpoint,
createRecipe (with the valid Pancakes draft) returns id 2, but getReviews(2)
then returns the stale aggregate with rating 5 and reviews ["x"] — not the
rating-0 empty aggregate the claim demands for every starting state. -/
theorem C2_counterexample :
    Recipe.valid draftW ∧
    get_reviews (add_recipe draftW fsStale).2.id (add_recipe draftW fsStale).1 =
      .ok { recipe_id := 2, rating := 5, reviews := ["x"] } ∧
    ¬ get_reviews (add_recipe draftW fsStale).2.id (add_recipe draftW fsStale).1 =
      .ok { recipe_id := (add_recipe draftW fsStale).2.id, rating := 0, reviews := [] } :=
  ⟨by unfold Recipe.valid; decide, by decide, by decide⟩

/-- Claim C2 amended: for a valid draft and a consistent starting store
(every stored aggregate refers to an already-issued id, i.e. recipe_id is at
most last_id — the invariant normal operation maintains), createRecipe
returning id N leaves the store such that getReviews(N) succeeds with
recipe_id = N, rating = 0 and an empty review list. -/
theorem C2_create_initializes_reviews (r : Recipe) (fs : FS)
    (_hval : r.valid) (hcons : fs.consistent) :
    get_reviews (add_recipe r fs).2.id (add_recipe r fs).1 =
      .ok { recipe_id := (add_recipe r fs).2.id, rating := 0, reviews := [] } := by
  have hrev := add_recipe_reviews r fs
  have hid := add_recipe_id r fs
  simp only [get_reviews, hrev, hid]
  rw [find_skip]
  · simp [List.find?]
  · intro x hx
    have hle := hcons x hx
    have : x.recipe_id ≠ lastId fs + 1 := by omega
    simpa using this

/-- Witness for C2 at the empty store and the spec's Pancakes draft. -/
theorem C2_witness :
    Recipe.valid draftW ∧ FS.consistent fsEmpty ∧
    get_reviews (add_recipe draftW fsEmpty).2.id (add_recipe draftW fsEmpty).1 =
      .ok { recipe_id := (add_recipe draftW fsEmpty).2.id, rating := 0, reviews := [] } :=
  ⟨by unfold Recipe.valid; decide, by unfold FS.consistent; decide,
    C2_create_initializes_reviews draftW fsEmpty (by unfold Recipe.valid; decide)
      (by unfold FS.consistent; decide)⟩

/-- Claim C3: when a recipe with id N exists, deleteRecipe(N) succeeds, after
it getReviews(N) signals the not-found error, no successful listRecipes call
(any filters) includes a recipe with id N, and the review store afterwards is
the old one with every aggregate keyed by N removed. -/
theorem C3_delete_cascades (fs : FS) (N : Int)
    (hex : ((readRecipes fs).recipes.any fun recipe => recipe.id == N) = true) :
    (delete_recipe N fs).2 = .ok () ∧
    get_reviews N (delete_recipe N fs).1 =
      .error (.notFound "Reviews not found for this recipe") ∧
    (∀ ing cat l, (get_recipes ing cat (delete_recipe N fs).1).2 = .ok l →
      ∀ r ∈ l, r.id ≠ N) ∧
    readReviews (delete_recipe N fs).1 =
      (readReviews fs).filter fun review => review.recipe_id != N := by
  have hstep : delete_recipe N fs =
      ({ data_file := some
            { recipes := (readRecipes fs).recipes.filter fun recipe => recipe.id != N
              last_id := (readRecipes fs).last_id }
         reviews_file := some ((readReviews fs).filter fun review => review.recipe_id != N) },
        .ok ()) := by
    simp only [delete_recipe]
    rw [if_pos hex]
  refine ⟨by rw [hstep], ?_, ?_, ?_⟩
  · rw [hstep]
    simp only [get_reviews, readReviews_eq, Option.getD_some]
    rw [find_filter_ne]
  · intro ing cat l hl r hr
    have hfl := get_recipes_ok hl
    subst hfl
    have hr2 : r ∈ (readRecipes (delete_recipe N fs).1).recipes :=
      (List.mem_filter.mp hr).1
    rw [hstep] at hr2
    simp only [readRecipes_eq, Option.getD_some] at hr2
    have := (List.mem_filter.mp hr2).2
    simpa [bne_iff_ne] using this
  · rw [hstep]
    simp [readReviews_eq]

/-- Witness for C3 at a one-recipe store. -/
theorem C3_witness :
    (delete_recipe 1 fsOne).2 = .ok () ∧
    get_reviews 1 (delete_recipe 1 fsOne).1 =
      .error (.notFound "Reviews not found for this recipe") ∧
    (∀ ing cat l, (get_recipes ing cat (delete_recipe 1 fsOne).1).2 = .ok l →
      ∀ r ∈ l, r.id ≠ 1) ∧
    readReviews (delete_recipe 1 fsOne).1 =
      (readReviews fsOne).filter fun review => review.recipe_id != 1 :=
  C3_delete_cascades fsOne 1 (by decide)

/-- Claim C9: when no stored recipe has id N, deleteRecipe(N) signals the
not-found error and returns the store unchanged, so neither the recipe store
nor the review store is touched. -/
theorem C9_delete_missing_unchanged (fs : FS) (N : Int)
    (h : ∀ r ∈ (readRecipes fs).recipes, r.id ≠ N) :
    delete_recipe N fs = (fs, .error (.notFound "Recipe not found")) := by
  have hneg : ¬((readRecipes fs).recipes.any fun recipe => recipe.id == N) = true := by
    intro hc
    obtain ⟨r, hr, hid⟩ := List.any_eq_true.mp hc
    exact h r hr (by simpa using hid)
  simp only [delete_recipe]
  rw [if_neg hneg]

/-- Witness for C9: deleting id 5 from the one-recipe store fails and leaves
both stores untouched. -/
theorem C9_witness :
    (∀ r ∈ (readRecipes fsOne).recipes, r.id ≠ (5 : Int)) ∧
    delete_recipe 5 fsOne = (fsOne, .error (.notFound "Recipe not found")) :=
  ⟨by decide, C9_delete_missing_unchanged fsOne 5 (by decide)⟩

/-- Claim C4 counterexample: with the category filter given as the empty
string, the endpoint ignores the filter (Python truthiness) and returns the
breakfast recipe, although the spec's equality clause rejects it; likewise an
empty ingredient filter returns a recipe with no ingredient entry at all,
although the spec's substring clause demands at least one matching entry. -/
theorem C4_counterexample :
    (get_recipes none (some "") fsOne).2 = .ok [{ toRecipe := draftW, id := 1 }] ∧
    ¬ specCategoryOk (some "") { toRecipe := draftW, id := 1 } ∧
    (get_recipes (some "") none fsEmptyIng).2 = .ok [emptyIngRecipeW] ∧
    ¬ specIngredientOk (some "") emptyIngRecipeW := by
  refine ⟨by decide, ?_, by decide, ?_⟩
  · rintro (h | ⟨s, hs, heq⟩)
    · exact Option.noConfusion h
    · injection hs with hs
      subst hs
      exact absurd heq (by decide)
  · rintro (h | ⟨s, hs, entry, he, _⟩)
    · exact Option.noConfusion h
    · exact absurd he (by simp [emptyIngRecipeW])

/-- Claim C4 amended: a successful listRecipes returns exactly the stored
recipes satisfying the conjunction of the two optional filters, where a
filter counts as given only when its text is non-empty (an empty filter
string is treated as absent, by Python truthiness); the boolean filter
agrees clause by clause with the spec's wording so amended, and in
particular ingredient "egg" matches ["Eggs", "Milk"] but not ["Bacon"]. -/
theorem C4_filter_semantics_amended :
    (∀ (ing cat : Option String) (fs : FS) (l : List RecipewithID),
      (get_recipes ing cat fs).2 = .ok l →
        l = (readRecipes fs).recipes.filter fun recipe =>
          ingredientMatch ing recipe && categoryMatch cat recipe) ∧
    (∀ (ing cat : Option String) (r : RecipewithID),
      (ingredientMatch ing r && categoryMatch cat r) = true ↔
        amendedIngredientOk ing r ∧ amendedCategoryOk cat r) ∧
    ingredientMatch (some "egg") eggRecipeW = true ∧
    ingredientMatch (some "egg") baconRecipeW = false :=
  ⟨fun _ _ _ _ hl => get_recipes_ok hl,
    fun ing cat r => filter_agrees_with_amended_spec ing cat r,
    by decide, by decide⟩

/-- Witness for C4: listing with ingredient "egg" against the two-recipe
store succeeds with exactly the egg recipe, which equals the filter. -/
theorem C4_witness :
    ([eggRecipeW] : List RecipewithID) =
      (readRecipes fsEgg).recipes.filter fun recipe =>
        ingredientMatch (some "egg") recipe && categoryMatch none recipe :=
  C4_filter_semantics_amended.1 (some "egg") none fsEgg [eggRecipeW] (by decide)

/-- Claim C5 counterexample: with the category filter given as the empty
string, no recipe of the one-recipe store satisfies the spec's category
clause — the spec-filtered result set is empty — yet the endpoint does not
signal NotFoundError (it succeeds with every recipe), refuting the claimed
equivalence read with the spec's filter clauses. -/
theorem C5_counterexample :
    (¬∃ e, (get_recipes none (some "") fsOne).2 = .error e) ∧
    ∀ r ∈ (readRecipes fsOne).recipes, ¬ specCategoryOk (some "") r := by
  constructor
  · rintro ⟨e, he⟩
    have hok : (get_recipes none (some "") fsOne).2 =
        .ok [{ toRecipe := draftW, id := 1 }] := by decide
    rw [hok] at he
    exact Except.noConfusion he
  · intro r hr h
    have hrec : (readRecipes fsOne).recipes = [{ toRecipe := draftW, id := 1 }] := by
      decide
    rw [hrec] at hr
    have hr1 : r = { toRecipe := draftW, id := 1 } := by simpa using hr
    subst hr1
    rcases h with h | ⟨s, hs, heq⟩
    · exact Option.noConfusion h
    · injection hs with hs
      subst hs
      exact absurd heq (by decide)

/-- Claim C5 amended: listRecipes signals NotFoundError exactly when the set
of stored recipes passing the program's filters (an empty filter text
counting as no filter) is empty, a successful result is never the empty
list, and the store is returned unchanged in both cases. -/
theorem C5_error_iff_filter_empty (ing cat : Option String) (fs : FS) :
    ((∃ e, (get_recipes ing cat fs).2 = .error e) ↔
      (readRecipes fs).recipes.filter (fun recipe =>
        ingredientMatch ing recipe && categoryMatch cat recipe) = []) ∧
    (∀ l, (get_recipes ing cat fs).2 = .ok l → l ≠ []) ∧
    (get_recipes ing cat fs).1 = fs := by
  refine ⟨?_, ?_, rfl⟩
  · by_cases he : ((readRecipes fs).recipes.filter fun recipe =>
        ingredientMatch ing recipe && categoryMatch cat recipe).isEmpty = true
    · refine ⟨fun _ => by simpa using he,
        fun _ => ⟨.notFound "No recipes found matching the criteria.", ?_⟩⟩
      simp only [get_recipes]
      rw [if_pos he]
    · constructor
      · rintro ⟨e, hee⟩
        simp only [get_recipes] at hee
        rw [if_neg he] at hee
        exact absurd hee (by simp)
      · intro hnil
        exact absurd (by simpa using hnil) he
  · intro l hl hnil
    have hfl := get_recipes_ok hl
    have he : ((readRecipes fs).recipes.filter fun recipe =>
        ingredientMatch ing recipe && categoryMatch cat recipe).isEmpty = true := by
      simp [hfl.symm.trans hnil]
    simp only [get_recipes] at hl
    rw [if_pos he] at hl
    exact absurd hl (by simp)

/-- Witness for C5 at a filter matching nothing in the one-recipe store. -/
theorem C5_witness :
    ((∃ e, (get_recipes (some "zzz") none fsOne).2 = .error e) ↔
      (readRecipes fsOne).recipes.filter (fun recipe =>
        ingredientMatch (some "zzz") recipe && categoryMatch none recipe) = []) ∧
    (∀ l, (get_recipes (some "zzz") none fsOne).2 = .ok l → l ≠ []) ∧
    (get_recipes (some "zzz") none fsOne).1 = fsOne :=
  C5_error_iff_filter_empty (some "zzz") none fsOne

/-- Claim C6 counterexample: at the store whose aggregate for id 1 carries
review list ["a"], updating with a payload carrying reviews ["b"] stores
["b"]; the claim demands the append ["a", "b"], which differs. -/
theorem C6_counterexample :
    readReviews (update_reviews 1 { recipe_id := 1, rating := 3, reviews := ["b"] } fsOne).1 =
      [{ recipe_id := 1, rating := 3, reviews := ["b"] }] ∧
    [({ recipe_id := 1, rating := 3, reviews := ["b"] } : ReviewRating)] ≠
      [{ recipe_id := 1, rating := 3, reviews := ["a", "b"] }] := by
  constructor
  · decide
  · decide

/-- Claim C6 amended: updateReviews overwrites the first aggregate matching
the path id with the payload wholesale: the stored rating becomes r and the
stored reviews list becomes exactly the payload's list T (replacement; the
append to L is performed by the client before sending, not by the server). -/
theorem C6_update_replaces (fs : FS) (N : Int) (rr : ReviewRating)
    (l₁ l₂ : List ReviewRating) (a : ReviewRating)
    (hsplit : readReviews fs = l₁ ++ a :: l₂)
    (h₁ : ∀ x ∈ l₁, (x.recipe_id == N) = false) (ha : a.recipe_id = N) :
    (update_reviews N rr fs).2 = .ok rr ∧
    readReviews (update_reviews N rr fs).1 = l₁ ++ rr :: l₂ := by
  have hu := updateFirst_split N rr l₁ l₂ a h₁ ha
  simp only [update_reviews, hsplit, hu]
  exact ⟨by trivial, by simp [readReviews_eq]⟩

/-- Witness for C6 amended at the one-recipe store. -/
theorem C6_witness :
    (update_reviews 1 { recipe_id := 1, rating := 3, reviews := ["b"] } fsOne).2 =
      .ok { recipe_id := 1, rating := 3, reviews := ["b"] } ∧
    readReviews (update_reviews 1 { recipe_id := 1, rating := 3, reviews := ["b"] } fsOne).1 =
      [] ++ { recipe_id := 1, rating := 3, reviews := ["b"] } :: [] :=
  C6_update_replaces fsOne 1 _ [] [] { recipe_id := 1, rating := 2, reviews := ["a"] }
    (by decide) (by decide) (by decide)

/-- Claim C7: fetch the aggregate for N, append one text client-side, send
the merged aggregate back, fetch again: the result carries rating r and the
old review list with the new text appended — prior entries preserved in
order, new text last. -/
theorem C7_client_merge_roundtrip (fs : FS) (N : Int) (r : ℚ) (newText : String)
    (agg : ReviewRating) (h : get_reviews N fs = .ok agg) :
    get_reviews N (update_reviews N
        { recipe_id := N, rating := r, reviews := agg.reviews ++ [newText] } fs).1 =
      .ok { recipe_id := N, rating := r, reviews := agg.reviews ++ [newText] } ∧
    (agg.reviews ++ [newText]).getLast? = some newText ∧
    (agg.reviews ++ [newText]).dropLast = agg.reviews := by
  refine ⟨?_, List.getLast?_concat _, List.dropLast_concat⟩
  have hfind : (readReviews fs).find? (fun item => item.recipe_id == N) = some agg := by
    simp only [get_reviews] at h
    cases hcase : (readReviews fs).find? (fun item => item.recipe_id == N) with
    | none =>
      rw [hcase] at h
      exact absurd h (by simp)
    | some x =>
      rw [hcase] at h
      injection h with h2
      rw [h2]
  obtain ⟨l₁, l₂, hsplit, hfalse⟩ := find_decomp hfind
  have hmatch : agg.recipe_id = N := by
    have := List.find?_some hfind
    simpa using this
  have hu := updateFirst_split N
    { recipe_id := N, rating := r, reviews := agg.reviews ++ [newText] } l₁ l₂ agg hfalse hmatch
  simp only [update_reviews, hsplit, hu]
  simp only [get_reviews, readReviews_eq, Option.getD_some]
  rw [find_skip _ hfalse, List.find?_cons_of_pos _ (by simp)]

/-- Witness for C7 at the one-recipe store. -/
theorem C7_witness :
    get_reviews 1 (update_reviews 1
        { recipe_id := 1, rating := 4, reviews := ["a"] ++ ["great"] } fsOne).1 =
      .ok { recipe_id := 1, rating := 4, reviews := ["a"] ++ ["great"] } ∧
    ((["a"] : List String) ++ ["great"]).getLast? = some "great" ∧
    ((["a"] : List String) ++ ["great"]).dropLast = ["a"] :=
  C7_client_merge_roundtrip fsOne 1 4 "great"
    { recipe_id := 1, rating := 2, reviews := ["a"] } (by decide)

/-- Claim C8: with no persisted document under the store's name, load
returns the type-appropriate default: the empty list for the review store
name, and the empty container with last_id 0 for the recipe store name. -/
theorem C8_read_defaults (fs : FS) :
    (fs.reviews_file = none → read_data fs REVIEWS_FILE = .reviewDoc []) ∧
    (fs.data_file = none → read_data fs DATA_FILE = .recipeDoc { recipes := [], last_id := 0 }) := by
  constructor
  · intro h
    simp [read_data, h]
  · intro h
    have hne : (DATA_FILE == REVIEWS_FILE) = false := by decide
    simp [read_data, hne, h]

/-- Witness for C8 at the store with neither file present. -/
theorem C8_witness :
    read_data fsEmpty REVIEWS_FILE = .reviewDoc [] ∧
    read_data fsEmpty DATA_FILE = .recipeDoc { recipes := [], last_id := 0 } :=
  ⟨(C8_read_defaults fsEmpty).1 rfl, (C8_read_defaults fsEmpty).2 rfl⟩

/-- Claim C10: the payload's recipe_id overwrites the stored key: updating
path id N with a payload keyed M stores M in the aggregate, and when M ≠ N
and no other aggregate is keyed N, a subsequent getReviews(N) signals the
not-found error even though recipe N still exists in the recipe store. -/
theorem C10_payload_key_overwrites (fs : FS) (N : Int) (rr : ReviewRating)
    (l₁ l₂ : List ReviewRating) (a : ReviewRating)
    (hsplit : readReviews fs = l₁ ++ a :: l₂)
    (h₁ : ∀ x ∈ l₁, (x.recipe_id == N) = false) (ha : a.recipe_id = N)
    (h₂ : ∀ x ∈ l₂, (x.recipe_id == N) = false)
    (hM : rr.recipe_id ≠ N)
    (hrec : ((readRecipes fs).recipes.any fun recipe => recipe.id == N) = true) :
    (update_reviews N rr fs).2 = .ok rr ∧
    readReviews (update_reviews N rr fs).1 = l₁ ++ rr :: l₂ ∧
    get_reviews N (update_reviews N rr fs).1 =
      .error (.notFound "Reviews not found for this recipe") ∧
    ((readRecipes (update_reviews N rr fs).1).recipes.any
      fun recipe => recipe.id == N) = true := by
  have hu := updateFirst_split N rr l₁ l₂ a h₁ ha
  simp only [update_reviews, hsplit, hu]
  refine ⟨by trivial, by simp [readReviews_eq], ?_, ?_⟩
  · simp only [get_reviews, readReviews_eq, Option.getD_some]
    have hnone : (l₁ ++ rr :: l₂).find? (fun item => item.recipe_id == N) = none := by
      rw [List.find?_eq_none]
      intro x hx
      rcases List.mem_append.mp hx with hx | hx
      · simp [h₁ x hx]
      · rcases List.mem_cons.mp hx with rfl | hx
        · simp [hM]
        · simp [h₂ x hx]
    rw [hnone]
  · simpa [readRecipes_eq] using hrec

/-- Witness for C10: rekeying the only aggregate of the one-recipe store from
1 to 2 makes getReviews(1) fail while recipe 1 remains stored. -/
theorem C10_witness :
    (update_reviews 1 { recipe_id := 2, rating := 3, reviews := [] } fsOne).2 =
      .ok { recipe_id := 2, rating := 3, reviews := [] } ∧
    readReviews (update_reviews 1 { recipe_id := 2, rating := 3, reviews := [] } fsOne).1 =
      [] ++ { recipe_id := 2, rating := 3, reviews := [] } :: [] ∧
    get_reviews 1 (update_reviews 1 { recipe_id := 2, rating := 3, reviews := [] } fsOne).1 =
      .error (.notFound "Reviews not found for this recipe") ∧
    ((readRecipes (update_reviews 1 { recipe_id := 2, rating := 3, reviews := [] } fsOne).1).recipes.any
      fun recipe => recipe.id == 1) = true :=
  C10_payload_key_overwrites fsOne 1 _ [] [] { recipe_id := 1, rating := 2, reviews := ["a"] }
    (by decide) (by decide) (by decide) (by decide) (by decide) (by decide)

end RecipeApp
